import Mathlib

/-!
# Verification of the `sgr-agent-store` basket-optimization core

Shallow embedding of the algorithmic parts of `store_agent.py`:

* `fetch_all_products` — paginated catalog fetch with a one-shot page-limit
  correction (source lines 12–50);
* `find_best_coupon` — the coupon-evaluator tool (source lines 147–203);
* the inventory-shortfall adjustment of the checkout sequencer, which the
  repository implements only as natural-language rule 6 of the system
  prompt (source lines 278–283), modelled from the spec.

The remote store is modelled as a deterministic oracle: a fixed basket with
a no-coupon total and an optional-valued map from coupon codes to the total obtained
with that coupon applied (an unmapped code makes `ApplyCoupon` raise, which
the source catches as `ApiException`).  Products are abstracted to their
SKU strings, the only attribute the verified properties mention.
-/

namespace StoreAgent

/-! ## The store model seen by the coupon evaluator -/

/-- Deterministic store oracle for a fixed basket content: the total with no
coupon, the total with each valid coupon applied (`none` = the server rejects
the code with an `ApiException`), and the diagnostic detail string of the server
for a rejected code. -/
structure CouponStore where
  baseTotal : Int
  couponTotal : String → Option Int
  detail : String → String

/-- The mutable server-side state the coupon evaluator touches: the coupon
currently applied to the basket (at most one). -/
structure StoreState where
  coupon : Option String
deriving DecidableEq

/-- `ViewBasket().total` for the current state: the total under the applied coupon
when one is applied and known to the oracle, the bare total otherwise. -/
def viewTotal (st : CouponStore) (s : StoreState) : Int :=
  match s.coupon with
  | none => st.baseTotal
  | some c => (st.couponTotal c).getD st.baseTotal

/-- A store request dispatched by the coupon evaluator, recorded in order so
that frame claims ("no operation is issued") are statable. -/
inductive StoreOp where
  | removeCoupon : StoreOp
  | viewBasket : StoreOp
  | applyCoupon (code : String) : StoreOp
deriving DecidableEq

/-- The loop state of the `for code in coupons` loop of `find_best_coupon`:
server state, current best coupon and best total, the report lines, and the
trace of dispatched requests. -/
structure LoopState where
  state : StoreState
  best : Option String
  bestTotal : Int
  report : List String
  ops : List StoreOp
deriving DecidableEq

/-- One iteration of the coupon loop (source lines 173–186): apply the code;
on success re-read the total, append `"{code}: {total}"` to the report and
update the best on a strictly smaller total; on `ApiException` append
`"{code}: Invalid ({detail})"` and leave everything else unchanged. -/
def couponStep (st : CouponStore) (ls : LoopState) (code : String) : LoopState :=
  match st.couponTotal code with
  | some _ =>
    let s : StoreState := ⟨some code⟩
    let entry := code ++ ": " ++ toString (viewTotal st s)
    if viewTotal st s < ls.bestTotal then
      { state := s
        best := some code
        bestTotal := viewTotal st s
        report := ls.report ++ [entry]
        ops := ls.ops ++ [StoreOp.applyCoupon code, StoreOp.viewBasket] }
    else
      { ls with
        state := s
        report := ls.report ++ [entry]
        ops := ls.ops ++ [StoreOp.applyCoupon code, StoreOp.viewBasket] }
  | none =>
    { ls with
      report := ls.report ++ [code ++ ": Invalid (" ++ st.detail code ++ ")"]
      ops := ls.ops ++ [StoreOp.applyCoupon code] }

/-- The structured outcome of a non-trivial evaluator run: the selected best
coupon (if any), its total, and the per-code report. -/
structure EvalResult where
  bestCoupon : Option String
  bestTotal : Int
  report : List String
deriving DecidableEq

/-- Full observable outcome of a `find_best_coupon` call: the returned
message string, the structured evaluation (absent on the empty-input early
return), the final server state, and the request trace. -/
structure FBCRun where
  message : String
  eval : Option EvalResult
  state : StoreState
  ops : List StoreOp
deriving DecidableEq

/-- `find_best_coupon` (source lines 147–203).  Empty input returns
`"No coupons provided."` at once.  Otherwise: remove any existing coupon,
read the baseline total as the initial best, fold the loop over the codes in
input order, then either re-apply the best coupon found or remove the coupon
so the basket ends coupon-free.  The deterministic oracle makes the
re-application of an already-validated code succeed, but the except branch of the source is kept. -/
def find_best_coupon (st : CouponStore) (s : StoreState) (coupons : List String) :
    FBCRun :=
  if coupons.isEmpty then
    { message := "No coupons provided.", eval := none, state := s, ops := [] }
  else
    let s1 : StoreState := ⟨none⟩
    let base := viewTotal st s1
    let init : LoopState :=
      { state := s1
        best := none
        bestTotal := base
        report := ["No coupon: " ++ toString base]
        ops := [StoreOp.removeCoupon, StoreOp.viewBasket] }
    let fin := coupons.foldl (couponStep st) init
    match fin.best with
    | some c =>
      match st.couponTotal c with
      | some _ =>
        { message := "Tested: " ++ String.intercalate "; " fin.report ++
            ". Applied best: " ++ c ++ " (Total: " ++ toString fin.bestTotal ++ ")"
          eval := some ⟨some c, fin.bestTotal, fin.report⟩
          state := ⟨some c⟩
          ops := fin.ops ++ [StoreOp.applyCoupon c] }
      | none =>
        { message := "Error re-applying best coupon " ++ c
          eval := some ⟨some c, fin.bestTotal, fin.report⟩
          state := fin.state
          ops := fin.ops ++ [StoreOp.applyCoupon c] }
    | none =>
      { message := "Tested: " ++ String.intercalate "; " fin.report ++
          ". No coupon applied (Base price " ++ toString base ++ " was best)."
        eval := some ⟨none, base, fin.report⟩
        state := ⟨none⟩
        ops := fin.ops ++ [StoreOp.removeCoupon] }

/-! ## The catalog fetch

`fetch_all_products` (source lines 12–50).  The remote listing endpoint is a
function from `(offset, limit)` to either a response or the string of an
`ApiException`; the page-limit pattern `page limit exceeded:\s*(\d+)\s*>\s*(\d+)`
is searched for in the error string exactly as `re.search` does, left to
right.  Products are abstracted to their SKU strings.  The unbounded
`while True` is given explicit fuel; `none` means the fuel ran out before
the loop exited. -/

/-- Leading run of decimal digits of a character list, paired with the rest
(the greedy `\d+`). -/
def digitSpan : List Char → List Char × List Char
  | [] => ([], [])
  | c :: cs =>
    if c.isDigit then
      let p := digitSpan cs
      (c :: p.1, p.2)
    else ([], c :: cs)

/-- Decimal value of a digit run. -/
def digitsToNat (ds : List Char) : Nat :=
  ds.foldl (fun n c => 10 * n + (c.toNat - 48)) 0

/-- Strip an exact literal from the front of a character list. -/
def stripLit : List Char → List Char → Option (List Char)
  | [], cs => some cs
  | _ :: _, [] => none
  | p :: ps, c :: cs => if c = p then stripLit ps cs else none

/-- Match `page limit exceeded:\s*(\d+)\s*>\s*(\d+)` anchored at the start of
the character list, returning the two captured numbers. -/
def pageLimitAt (cs : List Char) : Option (Nat × Nat) :=
  match stripLit ("page limit exceeded:".data) cs with
  | none => none
  | some cs1 =>
    match digitSpan (cs1.dropWhile Char.isWhitespace) with
    | ([], _) => none
    | (d1, cs3) =>
      match stripLit (">".data) (cs3.dropWhile Char.isWhitespace) with
      | none => none
      | some cs5 =>
        match digitSpan (cs5.dropWhile Char.isWhitespace) with
        | ([], _) => none
        | (d2, _) => some (digitsToNat d1, digitsToNat d2)

/-- Try the pattern at every position, leftmost first (`re.search`). -/
def searchPageLimitAux : List Char → Option (Nat × Nat)
  | [] => none
  | c :: cs =>
    match pageLimitAt (c :: cs) with
    | some r => some r
    | none => searchPageLimitAux cs

/-- The leftmost search for the page-limit pattern, returning the pair
`(requested, max allowed)` of captured groups. -/
def searchPageLimit (s : String) : Option (Nat × Nat) :=
  searchPageLimitAux s.data

/-- One `ListProducts` response: products (abstracted to SKUs) and the next
offset, `-1` meaning end of listing. -/
structure ListResp where
  products : List String
  next_offset : Int
deriving DecidableEq

/-- The listing endpoint: offset and limit to response or `ApiException`
message string. -/
def ListServer : Type :=
  Int → Nat → Except String ListResp

/-- The `while True` loop of `fetch_all_products`, with fuel.  Returns the
accumulated SKUs and the number of page-limit restarts taken; `none` means
the fuel was exhausted before the loop exited. -/
def fetchLoop (server : ListServer) :
    Nat → Int → Nat → Bool → List String → Nat → Option (List String × Nat)
  | 0, _, _, _, _, _ => none
  | fuel + 1, offset, limit, retried, acc, restarts =>
    match server offset limit with
    | Except.ok res =>
      let acc2 := acc ++ res.products
      if res.next_offset = -1 then some (acc2, restarts)
      else fetchLoop server fuel res.next_offset limit retried acc2 restarts
    | Except.error e =>
      match searchPageLimit e with
      | some pr =>
        if retried then some (acc, restarts)
        else if 0 < pr.2 then fetchLoop server fuel 0 pr.2 true [] (restarts + 1)
        else some (acc, restarts)
      | none => some (acc, restarts)

/-- `fetch_all_products` (source lines 12–50): start at offset 0 with the
hard-coded page size 3, no restart taken yet, nothing accumulated. -/
def fetch_all_products (server : ListServer) (fuel : Nat) :
    Option (List String × Nat) :=
  fetchLoop server fuel 0 3 false [] 0

/-- An honest paginated listing over a fixed catalog: limits above
`maxLimit` are rejected with the page-limit message of the server, otherwise the
response is the next `limit`-sized slice and the following offset (or `-1`
past the end). -/
def honestServer (catalog : List String) (maxLimit : Nat) : ListServer :=
  fun offset limit =>
    if maxLimit < limit then
      Except.error
        ("page limit exceeded: " ++ toString limit ++ " > " ++ toString maxLimit)
    else
      Except.ok
        { products := (catalog.drop offset.toNat).take limit
          next_offset :=
            if offset.toNat + limit < catalog.length then
              ((offset.toNat + limit : Nat) : Int)
            else -1 }

/-- An error-free listing endpoint induced by a pure response function of
the offset (the limit does not matter: no request fails). -/
def serverOf (step : Int → ListResp) : ListServer :=
  fun offset _ => Except.ok (step offset)

/-- The offset reached after following `n` responses of `step` from `o`. -/
def offFrom (step : Int → ListResp) (o : Int) : Nat → Int
  | 0 => o
  | n + 1 => (step (offFrom step o n)).next_offset

/-- Concatenation of the products of pages `o`, `next o`, …, `n` links deep. -/
def collectFrom (step : Int → ListResp) : Nat → Int → List String
  | 0, o => (step o).products
  | n + 1, o => (step o).products ++ collectFrom step n (step o).next_offset

/-! ## The checkout sequencer

Modelled from the spec: the repository drives checkout retries through
natural-language rule 6 of the system prompt ("Calculate difference (Y - X).
Remove that amount from basket using remove_product. Call checkout again"),
with no deterministic code under `src/` performing the adjustment.  The
definitions below follow §4.4 of the spec: on an insufficient-inventory
failure reporting `(available, requested)` for a line, reduce the quantity of that line by the shortfall `requested - available` and re-issue checkout. -/

/-- A basket line: SKU and quantity. -/
structure BasketLine where
  sku : String
  qty : Nat
deriving DecidableEq

/-- Total requested quantity of a basket. -/
def totalQty (lines : List BasketLine) : Nat :=
  (lines.map BasketLine.qty).sum

/-- Modelled from the spec: one `CheckoutBasket` attempt against a fixed
inventory.  It fails on the first line whose requested quantity exceeds the
available stock, reporting `(sku, available, requested)`; `none` is a
successful commit. -/
def checkoutAttempt (inv : String → Nat) (lines : List BasketLine) :
    Option (String × Nat × Nat) :=
  lines.findSome? fun l =>
    if inv l.sku < l.qty then some (l.sku, inv l.sku, l.qty) else none

/-- Modelled from the spec: the `adjust` transition — reduce the failing
line by the shortfall `requested - available`. -/
def shortfallAdjust (lines : List BasketLine) (sku : String)
    (available requested : Nat) : List BasketLine :=
  lines.map fun l =>
    if l.sku = sku then { l with qty := l.qty - (requested - available) } else l

/-- Modelled from the spec: the checkout retry loop — attempt, and on an
insufficient-inventory failure adjust and re-issue, with fuel.  `some` is
the committed basket, `none` means the fuel ran out. -/
def checkoutSequencer (inv : String → Nat) :
    Nat → List BasketLine → Option (List BasketLine)
  | 0, _ => none
  | fuel + 1, lines =>
    match checkoutAttempt inv lines with
    | none => some lines
    | some f => checkoutSequencer inv fuel (shortfallAdjust lines f.1 f.2.1 f.2.2)

/-! ## Coupon-evaluator lemmas -/

theorem viewTotal_none (st : CouponStore) : viewTotal st ⟨none⟩ = st.baseTotal :=
  rfl

theorem viewTotal_applied (st : CouponStore) (code : String) (t : Int)
    (h : st.couponTotal code = some t) : viewTotal st ⟨some code⟩ = t := by
  simp [viewTotal, h]

/-- The report line the loop body appends for `code`. -/
def reportEntry (st : CouponStore) (code : String) : String :=
  match st.couponTotal code with
  | some _ => code ++ ": " ++ toString (viewTotal st ⟨some code⟩)
  | none => code ++ ": Invalid (" ++ st.detail code ++ ")"

theorem couponStep_invalid (st : CouponStore) (ls : LoopState) (code : String)
    (h : st.couponTotal code = none) :
    couponStep st ls code =
      { ls with
        report := ls.report ++ [code ++ ": Invalid (" ++ st.detail code ++ ")"]
        ops := ls.ops ++ [StoreOp.applyCoupon code] } := by
  unfold couponStep
  rw [h]

theorem couponStep_valid_lt (st : CouponStore) (ls : LoopState) (code : String)
    (t : Int) (h : st.couponTotal code = some t) (hlt : t < ls.bestTotal) :
    couponStep st ls code =
      { state := ⟨some code⟩
        best := some code
        bestTotal := t
        report := ls.report ++ [code ++ ": " ++ toString t]
        ops := ls.ops ++ [StoreOp.applyCoupon code, StoreOp.viewBasket] } := by
  unfold couponStep
  rw [h]
  simp [viewTotal, h, hlt]

theorem couponStep_valid_ge (st : CouponStore) (ls : LoopState) (code : String)
    (t : Int) (h : st.couponTotal code = some t) (hge : ¬ t < ls.bestTotal) :
    couponStep st ls code =
      { ls with
        state := ⟨some code⟩
        report := ls.report ++ [code ++ ": " ++ toString t]
        ops := ls.ops ++ [StoreOp.applyCoupon code, StoreOp.viewBasket] } := by
  unfold couponStep
  rw [h]
  simp [viewTotal, h, hge]

theorem couponStep_report (st : CouponStore) (ls : LoopState) (code : String) :
    (couponStep st ls code).report = ls.report ++ [reportEntry st code] := by
  cases h : st.couponTotal code with
  | none => rw [couponStep_invalid st ls code h]; simp [reportEntry, h]
  | some t =>
    by_cases hlt : t < ls.bestTotal
    · rw [couponStep_valid_lt st ls code t h hlt]
      simp [reportEntry, h, viewTotal_applied st code t h]
    · rw [couponStep_valid_ge st ls code t h hlt]
      simp [reportEntry, h, viewTotal_applied st code t h]

theorem loop_report (st : CouponStore) :
    ∀ (codes : List String) (ls : LoopState),
      (codes.foldl (couponStep st) ls).report =
        ls.report ++ codes.map (reportEntry st) := by
  intro codes
  induction codes with
  | nil => intro ls; simp
  | cons code rest ih =>
    intro ls
    simp only [List.foldl_cons, List.map_cons]
    rw [ih (couponStep st ls code), couponStep_report]
    simp

theorem couponStep_bestTotal_le (st : CouponStore) (ls : LoopState) (code : String) :
    (couponStep st ls code).bestTotal ≤ ls.bestTotal := by
  cases h : st.couponTotal code with
  | none => rw [couponStep_invalid st ls code h]
  | some t =>
    by_cases hlt : t < ls.bestTotal
    · rw [couponStep_valid_lt st ls code t h hlt]; exact le_of_lt hlt
    · rw [couponStep_valid_ge st ls code t h hlt]

theorem loop_bestTotal_le (st : CouponStore) :
    ∀ (codes : List String) (ls : LoopState),
      (codes.foldl (couponStep st) ls).bestTotal ≤ ls.bestTotal := by
  intro codes
  induction codes with
  | nil => intro ls; exact le_refl _
  | cons code rest ih =>
    intro ls
    exact le_trans (ih (couponStep st ls code)) (couponStep_bestTotal_le st ls code)

/-- Case analysis of the coupon loop: either no code ever beat the incoming
best (best and best total unchanged, every valid code at least the final
best total), or the final best is the first code achieving the final best
total, every valid code before it strictly above it and every valid code
after it no better. -/
theorem loop_cases (st : CouponStore) :
    ∀ (codes : List String) (ls : LoopState),
      ((codes.foldl (couponStep st) ls).best = ls.best ∧
        (codes.foldl (couponStep st) ls).bestTotal = ls.bestTotal ∧
        ∀ c2 ∈ codes, ∀ t, st.couponTotal c2 = some t →
          (codes.foldl (couponStep st) ls).bestTotal ≤ t) ∨
      (∃ c pre post,
        (codes.foldl (couponStep st) ls).best = some c ∧
        codes = pre ++ c :: post ∧
        st.couponTotal c = some (codes.foldl (couponStep st) ls).bestTotal ∧
        (codes.foldl (couponStep st) ls).bestTotal < ls.bestTotal ∧
        (∀ c2 ∈ pre, ∀ t, st.couponTotal c2 = some t →
          (codes.foldl (couponStep st) ls).bestTotal < t) ∧
        (∀ c2 ∈ post, ∀ t, st.couponTotal c2 = some t →
          (codes.foldl (couponStep st) ls).bestTotal ≤ t)) := by
  intro codes
  induction codes with
  | nil =>
    intro ls
    exact Or.inl ⟨rfl, rfl, by simp⟩
  | cons code rest ih =>
    intro ls
    simp only [List.foldl_cons]
    cases h : st.couponTotal code with
    | none =>
      have hb2 : (couponStep st ls code).best = ls.best := by
        rw [couponStep_invalid st ls code h]
      have ht2 : (couponStep st ls code).bestTotal = ls.bestTotal := by
        rw [couponStep_invalid st ls code h]
      rcases ih (couponStep st ls code) with ⟨e1, e2, hall⟩ |
        ⟨c, pre, post, hb, heq, hct, hlt2, hpre, hpost⟩
      · refine Or.inl ⟨by rw [e1, hb2], by rw [e2, ht2], ?_⟩
        intro c2 hc2 t2 hct2
        rcases List.mem_cons.mp hc2 with rfl | hmem
        · rw [h] at hct2; exact Option.noConfusion hct2
        · exact hall c2 hmem t2 hct2
      · refine Or.inr ⟨c, code :: pre, post, hb, by simp [heq], hct, ?_, ?_, hpost⟩
        · rw [ht2] at hlt2; exact hlt2
        · intro c2 hc2 t2 hct2
          rcases List.mem_cons.mp hc2 with rfl | hmem
          · rw [h] at hct2; exact Option.noConfusion hct2
          · exact hpre c2 hmem t2 hct2
    | some t =>
      by_cases hlt : t < ls.bestTotal
      · have hb2 : (couponStep st ls code).best = some code := by
          rw [couponStep_valid_lt st ls code t h hlt]
        have ht2 : (couponStep st ls code).bestTotal = t := by
          rw [couponStep_valid_lt st ls code t h hlt]
        rcases ih (couponStep st ls code) with ⟨e1, e2, hall⟩ |
          ⟨c, pre, post, hb, heq, hct, hlt2, hpre, hpost⟩
        · refine Or.inr ⟨code, [], rest, by rw [e1, hb2], by simp, ?_, ?_, ?_, ?_⟩
          · rw [e2, ht2]; exact h
          · rw [e2, ht2]; exact hlt
          · intro c2 hc2; exact absurd hc2 (List.not_mem_nil c2)
          · exact hall
        · refine Or.inr ⟨c, code :: pre, post, hb, by simp [heq], hct, ?_, ?_, hpost⟩
          · rw [ht2] at hlt2; exact lt_trans hlt2 hlt
          · intro c2 hc2 t2 hct2
            rcases List.mem_cons.mp hc2 with rfl | hmem
            · rw [h] at hct2; injection hct2 with e
              rw [ht2] at hlt2; omega
            · exact hpre c2 hmem t2 hct2
      · have hb2 : (couponStep st ls code).best = ls.best := by
          rw [couponStep_valid_ge st ls code t h hlt]
        have ht2 : (couponStep st ls code).bestTotal = ls.bestTotal := by
          rw [couponStep_valid_ge st ls code t h hlt]
        rcases ih (couponStep st ls code) with ⟨e1, e2, hall⟩ |
          ⟨c, pre, post, hb, heq, hct, hlt2, hpre, hpost⟩
        · refine Or.inl ⟨by rw [e1, hb2], by rw [e2, ht2], ?_⟩
          intro c2 hc2 t2 hct2
          rcases List.mem_cons.mp hc2 with rfl | hmem
          · rw [h] at hct2; injection hct2 with e
            rw [e2, ht2]; omega
          · exact hall c2 hmem t2 hct2
        · refine Or.inr ⟨c, code :: pre, post, hb, by simp [heq], hct, ?_, ?_, hpost⟩
          · rw [ht2] at hlt2; exact hlt2
          · intro c2 hc2 t2 hct2
            rcases List.mem_cons.mp hc2 with rfl | hmem
            · rw [h] at hct2; injection hct2 with e
              rw [ht2] at hlt2; omega
            · exact hpre c2 hmem t2 hct2

/-- The loop state of `find_best_coupon` after clearing the coupon and
reading the baseline total, before any candidate is tried. -/
def fbcInit (st : CouponStore) : LoopState :=
  { state := ⟨none⟩
    best := none
    bestTotal := st.baseTotal
    report := ["No coupon: " ++ toString st.baseTotal]
    ops := [StoreOp.removeCoupon, StoreOp.viewBasket] }

/-- The final phase of `find_best_coupon` after the loop: re-apply the best
coupon if one was found, otherwise remove the coupon. -/
def fbcFinish (st : CouponStore) (fin : LoopState) : FBCRun :=
  match fin.best with
  | some c =>
    match st.couponTotal c with
    | some _ =>
      { message := "Tested: " ++ String.intercalate "; " fin.report ++
          ". Applied best: " ++ c ++ " (Total: " ++ toString fin.bestTotal ++ ")"
        eval := some ⟨some c, fin.bestTotal, fin.report⟩
        state := ⟨some c⟩
        ops := fin.ops ++ [StoreOp.applyCoupon c] }
    | none =>
      { message := "Error re-applying best coupon " ++ c
        eval := some ⟨some c, fin.bestTotal, fin.report⟩
        state := fin.state
        ops := fin.ops ++ [StoreOp.applyCoupon c] }
  | none =>
    { message := "Tested: " ++ String.intercalate "; " fin.report ++
        ". No coupon applied (Base price " ++ toString st.baseTotal ++ " was best)."
      eval := some ⟨none, st.baseTotal, fin.report⟩
      state := ⟨none⟩
      ops := fin.ops ++ [StoreOp.removeCoupon] }

/-- On a non-empty candidate list, `find_best_coupon` is the loop run from
the baseline state followed by the final phase. -/
theorem find_best_coupon_run (st : CouponStore) (s : StoreState) (c0 : String)
    (cs : List String) :
    find_best_coupon st s (c0 :: cs) =
      fbcFinish st ((c0 :: cs).foldl (couponStep st) (fbcInit st)) :=
  rfl

theorem find_best_coupon_nil (st : CouponStore) (s : StoreState) :
    find_best_coupon st s [] =
      { message := "No coupons provided.", eval := none, state := s, ops := [] } :=
  rfl

theorem fbcFinish_eval_none (st : CouponStore) (fin : LoopState)
    (h : fin.best = none) :
    (fbcFinish st fin).eval = some ⟨none, st.baseTotal, fin.report⟩ := by
  unfold fbcFinish
  split
  next c2 heq => rw [h] at heq; exact Option.noConfusion heq
  next heq => rfl

theorem fbcFinish_state_none (st : CouponStore) (fin : LoopState)
    (h : fin.best = none) : (fbcFinish st fin).state = ⟨none⟩ := by
  unfold fbcFinish
  split
  next c2 heq => rw [h] at heq; exact Option.noConfusion heq
  next heq => rfl

theorem fbcFinish_eval_some (st : CouponStore) (fin : LoopState) (c : String)
    (h : fin.best = some c) :
    (fbcFinish st fin).eval = some ⟨some c, fin.bestTotal, fin.report⟩ := by
  unfold fbcFinish
  split
  next c2 heq =>
    rw [h] at heq
    injection heq with e
    subst e
    split <;> rfl
  next heq => rw [h] at heq; exact Option.noConfusion heq

theorem fbcFinish_state_some (st : CouponStore) (fin : LoopState) (c : String)
    (t : Int) (h : fin.best = some c) (h2 : st.couponTotal c = some t) :
    (fbcFinish st fin).state = ⟨some c⟩ := by
  unfold fbcFinish
  split
  next c2 heq =>
    rw [h] at heq
    injection heq with e
    subst e
    split
    next => rfl
    next heq2 => rw [h2] at heq2; exact Option.noConfusion heq2
  next heq => rw [h] at heq; exact Option.noConfusion heq

/-- Claim C1: the best total the evaluator reports is never above the
no-coupon baseline total, which is the initial best and is only replaced by
a strictly smaller observed total. -/
theorem find_best_coupon_le_baseline (st : CouponStore) (s : StoreState)
    (coupons : List String) (r : EvalResult)
    (h : (find_best_coupon st s coupons).eval = some r) :
    r.bestTotal ≤ st.baseTotal := by
  cases coupons with
  | nil =>
    rw [find_best_coupon_nil] at h
    exact Option.noConfusion h
  | cons c0 cs =>
    rw [find_best_coupon_run] at h
    have hle : ((c0 :: cs).foldl (couponStep st) (fbcInit st)).bestTotal ≤ st.baseTotal :=
      loop_bestTotal_le st (c0 :: cs) (fbcInit st)
    cases hbest : ((c0 :: cs).foldl (couponStep st) (fbcInit st)).best with
    | none =>
      rw [fbcFinish_eval_none st _ hbest] at h
      injection h with h2
      rw [← h2]
    | some c =>
      rw [fbcFinish_eval_some st _ c hbest] at h
      injection h with h2
      rw [← h2]
      exact hle

/-- Witness store for the coupon-evaluator claims: baseline 10, coupons A
and B both give 7, C gives 12, everything else is rejected. -/
def wStore : CouponStore :=
  { baseTotal := 10
    couponTotal := fun c =>
      if c = "A" then some 7 else if c = "B" then some 7
      else if c = "C" then some 12 else none
    detail := fun _ => "invalid coupon" }

theorem find_best_coupon_le_baseline_witness :
    (find_best_coupon wStore ⟨none⟩ ["A", "X"]).eval =
      some ⟨some "A", 7, ["No coupon: 10", "A: 7", "X: Invalid (invalid coupon)"]⟩ ∧
    (7 : Int) ≤ wStore.baseTotal :=
  ⟨by decide,
    find_best_coupon_le_baseline wStore ⟨none⟩ ["A", "X"]
      ⟨some "A", 7, ["No coupon: 10", "A: 7", "X: Invalid (invalid coupon)"]⟩
      (by decide)⟩

/-- Claim C8: on a fixed basket with a deterministic store the evaluator is
idempotent — re-running it from the state it left behind reproduces the
same outcome (message, best code, best total, final coupon state) exactly. -/
theorem find_best_coupon_idempotent (st : CouponStore) (s : StoreState)
    (coupons : List String) :
    find_best_coupon st (find_best_coupon st s coupons).state coupons =
      find_best_coupon st s coupons := by
  cases coupons with
  | nil => rfl
  | cons c0 cs =>
    rw [find_best_coupon_run st s c0 cs,
      find_best_coupon_run st (fbcFinish st ((c0 :: cs).foldl (couponStep st) (fbcInit st))).state c0 cs]

/-- Claim C10: calling `find_best_coupon` with an empty candidate list
returns the message "No coupons provided." immediately, dispatches no store
request (so the basket is neither read nor mutated, and an already-applied
coupon is not cleared), and leaves the state unchanged. -/
theorem find_best_coupon_empty_frame (st : CouponStore) (s : StoreState) :
    find_best_coupon st s [] =
      { message := "No coupons provided.", eval := none, state := s, ops := [] } :=
  rfl

/-- Outcome required of a finished evaluator run: a structured result is
produced; when some candidate beats the baseline the best code ends up
applied, and when no valid candidate beats the baseline (in particular when
every code is invalid) the basket ends with no coupon. -/
def FinalStateProp (st : CouponStore) (s : StoreState) (coupons : List String) : Prop :=
  ∃ r, (find_best_coupon st s coupons).eval = some r ∧
    ((∃ c ∈ coupons, ∃ t, st.couponTotal c = some t ∧ t < st.baseTotal) →
      ∃ c, r.bestCoupon = some c ∧ (find_best_coupon st s coupons).state = ⟨some c⟩) ∧
    ((∀ c ∈ coupons, ∀ t, st.couponTotal c = some t → st.baseTotal ≤ t) →
      r.bestCoupon = none ∧ (find_best_coupon st s coupons).state = ⟨none⟩)

/-- Claim C3: on a non-empty candidate list the evaluator re-applies the
best coupon when one beat the baseline, and otherwise (all candidates
invalid or not better) explicitly clears the coupon. -/
theorem find_best_coupon_final_state (st : CouponStore) (s : StoreState)
    (coupons : List String) (hne : coupons ≠ []) :
    FinalStateProp st s coupons := by
  cases coupons with
  | nil => exact absurd rfl hne
  | cons c0 cs =>
    unfold FinalStateProp
    rw [find_best_coupon_run]
    rcases loop_cases st (c0 :: cs) (fbcInit st) with ⟨e1, e2, hall⟩ |
      ⟨c, pre, post, hb, heq, hct, hlt, hpre, hpost⟩
    · refine ⟨⟨none, st.baseTotal, _⟩, fbcFinish_eval_none st _ (e1.trans rfl), ?_, ?_⟩
      · rintro ⟨c, hc, t, hct, hlt⟩
        have h1 := hall c hc t hct
        have h2 : st.baseTotal ≤ t := by
          rw [e2] at h1; exact h1
        omega
      · intro _
        exact ⟨rfl, fbcFinish_state_none st _ (e1.trans rfl)⟩
    · refine ⟨⟨some c, _, _⟩, fbcFinish_eval_some st _ c hb, ?_, ?_⟩
      · intro _
        exact ⟨c, rfl, fbcFinish_state_some st _ c _ hb hct⟩
      · intro hall2
        have hc : c ∈ c0 :: cs := by
          rw [heq]; exact List.mem_append_right pre (List.mem_cons_self c post)
        have h1 := hall2 c hc _ hct
        have h2 : ((c0 :: cs).foldl (couponStep st) (fbcInit st)).bestTotal <
            st.baseTotal := hlt
        omega

theorem find_best_coupon_final_state_witness :
    (["A", "X"] : List String) ≠ [] ∧ FinalStateProp wStore ⟨none⟩ ["A", "X"] :=
  ⟨by decide, find_best_coupon_final_state wStore ⟨none⟩ ["A", "X"] (by decide)⟩

/-- `c` is the first code of `codes` achieving the best total `bt`: `bt`
beats the baseline, `c` observes exactly `bt`, every valid code before `c`
is strictly worse, and every valid code after `c` is no better. -/
def FirstMinProp (st : CouponStore) (codes : List String) (c : String) (bt : Int) : Prop :=
  bt < st.baseTotal ∧ st.couponTotal c = some bt ∧
  ∃ pre post, codes = pre ++ c :: post ∧
    (∀ c2 ∈ pre, ∀ t, st.couponTotal c2 = some t → bt < t) ∧
    (∀ c2 ∈ post, ∀ t, st.couponTotal c2 = some t → bt ≤ t)

/-- Claim C4: ties go to the first code in input order — the selected best
code is the first one achieving the minimal total, because only a strictly
smaller observed total replaces the current best. -/
theorem find_best_coupon_first_min (st : CouponStore) (s : StoreState)
    (coupons : List String) (r : EvalResult) (c : String)
    (h : (find_best_coupon st s coupons).eval = some r)
    (hb : r.bestCoupon = some c) :
    FirstMinProp st coupons c r.bestTotal := by
  cases coupons with
  | nil =>
    rw [find_best_coupon_nil] at h
    exact Option.noConfusion h
  | cons c0 cs =>
    rw [find_best_coupon_run] at h
    rcases loop_cases st (c0 :: cs) (fbcInit st) with ⟨e1, e2, hall⟩ |
      ⟨c1, pre, post, hbf, heq, hct, hlt, hpre, hpost⟩
    · rw [fbcFinish_eval_none st _ (e1.trans rfl)] at h
      injection h with h2
      subst h2
      exact Option.noConfusion hb
    · rw [fbcFinish_eval_some st _ c1 hbf] at h
      injection h with h2
      subst h2
      have hb2 : some c1 = some c := hb
      injection hb2 with e
      subst e
      exact ⟨hlt, hct, pre, post, heq, hpre, hpost⟩

theorem find_best_coupon_first_min_witness :
    (find_best_coupon wStore ⟨none⟩ ["A", "B"]).eval =
      some ⟨some "A", 7, ["No coupon: 10", "A: 7", "B: 7"]⟩ ∧
    FirstMinProp wStore ["A", "B"] "A"
      (EvalResult.bestTotal ⟨some "A", 7, ["No coupon: 10", "A: 7", "B: 7"]⟩) :=
  ⟨by decide,
    find_best_coupon_first_min wStore ⟨none⟩ ["A", "B"]
      ⟨some "A", 7, ["No coupon: 10", "A: 7", "B: 7"]⟩ "A" (by decide) rfl⟩

theorem couponStep_congr (st : CouponStore) (ls1 ls2 : LoopState) (code : String)
    (h1 : ls1.state = ls2.state) (h2 : ls1.best = ls2.best)
    (h3 : ls1.bestTotal = ls2.bestTotal) :
    (couponStep st ls1 code).state = (couponStep st ls2 code).state ∧
    (couponStep st ls1 code).best = (couponStep st ls2 code).best ∧
    (couponStep st ls1 code).bestTotal = (couponStep st ls2 code).bestTotal := by
  cases h : st.couponTotal code with
  | none =>
    rw [couponStep_invalid st ls1 code h, couponStep_invalid st ls2 code h]
    exact ⟨h1, h2, h3⟩
  | some t =>
    by_cases hlt : t < ls1.bestTotal
    · rw [couponStep_valid_lt st ls1 code t h hlt,
        couponStep_valid_lt st ls2 code t h (by rw [← h3]; exact hlt)]
      exact ⟨rfl, rfl, rfl⟩
    · rw [couponStep_valid_ge st ls1 code t h hlt,
        couponStep_valid_ge st ls2 code t h (by rw [← h3]; exact hlt)]
      exact ⟨rfl, h2, h3⟩

/-- Only `state`, `best` and `bestTotal` feed back into the loop; `report`
and `ops` are write-only accumulators. -/
theorem loop_congr (st : CouponStore) :
    ∀ (codes : List String) (ls1 ls2 : LoopState),
      ls1.state = ls2.state → ls1.best = ls2.best → ls1.bestTotal = ls2.bestTotal →
      (codes.foldl (couponStep st) ls1).state = (codes.foldl (couponStep st) ls2).state ∧
      (codes.foldl (couponStep st) ls1).best = (codes.foldl (couponStep st) ls2).best ∧
      (codes.foldl (couponStep st) ls1).bestTotal =
        (codes.foldl (couponStep st) ls2).bestTotal := by
  intro codes
  induction codes with
  | nil => intro ls1 ls2 h1 h2 h3; exact ⟨h1, h2, h3⟩
  | cons code rest ih =>
    intro ls1 ls2 h1 h2 h3
    simp only [List.foldl_cons]
    obtain ⟨g1, g2, g3⟩ := couponStep_congr st ls1 ls2 code h1 h2 h3
    exact ih (couponStep st ls1 code) (couponStep st ls2 code) g1 g2 g3

/-- Effect required of an invalid `code` sitting between `pre` and `post`:
the loop reaches the same best code, best total and server state as the
loop without `code`, and the report gains exactly one line recording the
code as invalid, in position, while all of `post` is still evaluated. -/
def InvalidSkipProp (st : CouponStore) (ls : LoopState) (pre : List String)
    (code : String) (post : List String) : Prop :=
  ((pre ++ code :: post).foldl (couponStep st) ls).best =
    ((pre ++ post).foldl (couponStep st) ls).best ∧
  ((pre ++ code :: post).foldl (couponStep st) ls).bestTotal =
    ((pre ++ post).foldl (couponStep st) ls).bestTotal ∧
  ((pre ++ code :: post).foldl (couponStep st) ls).state =
    ((pre ++ post).foldl (couponStep st) ls).state ∧
  ((pre ++ code :: post).foldl (couponStep st) ls).report =
    ls.report ++ pre.map (reportEntry st) ++
      [code ++ ": Invalid (" ++ st.detail code ++ ")"] ++ post.map (reportEntry st)

/-- Claim C5: a code rejected by the server is recorded as invalid in the
report, is excluded from the minimum search (best code, best total and
final state are those of the run without it), and does not stop the
remaining codes from being evaluated. -/
theorem coupon_loop_invalid_skipped (st : CouponStore) (ls : LoopState)
    (pre : List String) (code : String) (post : List String)
    (h : st.couponTotal code = none) :
    InvalidSkipProp st ls pre code post := by
  unfold InvalidSkipProp
  have hrep : ((pre ++ code :: post).foldl (couponStep st) ls).report =
      ls.report ++ pre.map (reportEntry st) ++
        [code ++ ": Invalid (" ++ st.detail code ++ ")"] ++
        post.map (reportEntry st) := by
    rw [loop_report]
    have he : reportEntry st code = code ++ ": Invalid (" ++ st.detail code ++ ")" := by
      unfold reportEntry
      rw [h]
    simp [he]
  refine ⟨?_, ?_, ?_, hrep⟩ <;>
  · rw [List.foldl_append, List.foldl_append, List.foldl_cons]
    have g1 : (couponStep st (pre.foldl (couponStep st) ls) code).state =
        (pre.foldl (couponStep st) ls).state := by
      rw [couponStep_invalid st _ code h]
    have g2 : (couponStep st (pre.foldl (couponStep st) ls) code).best =
        (pre.foldl (couponStep st) ls).best := by
      rw [couponStep_invalid st _ code h]
    have g3 : (couponStep st (pre.foldl (couponStep st) ls) code).bestTotal =
        (pre.foldl (couponStep st) ls).bestTotal := by
      rw [couponStep_invalid st _ code h]
    obtain ⟨k1, k2, k3⟩ := loop_congr st post _ _ g1 g2 g3
    first
      | exact k1
      | exact k2
      | exact k3

theorem coupon_loop_invalid_skipped_witness :
    wStore.couponTotal "X" = none ∧
    InvalidSkipProp wStore (fbcInit wStore) ["A"] "X" ["C"] :=
  ⟨by decide, coupon_loop_invalid_skipped wStore (fbcInit wStore) ["A"] "X" ["C"] (by decide)⟩

/-! ## Catalog-fetch lemmas -/

/-- One successful iteration of the fetch loop. -/
theorem fetchLoop_ok_step (server : ListServer) (fuel : Nat) (o : Int)
    (limit : Nat) (retried : Bool) (acc : List String) (rs : Nat) (res : ListResp)
    (hsrv : server o limit = Except.ok res) :
    fetchLoop server (fuel + 1) o limit retried acc rs =
      if res.next_offset = -1 then some (acc ++ res.products, rs)
      else fetchLoop server fuel res.next_offset limit retried (acc ++ res.products) rs := by
  simp only [fetchLoop, hsrv]

/-- One failing iteration of the fetch loop. -/
theorem fetchLoop_err_step (server : ListServer) (fuel : Nat) (o : Int)
    (limit : Nat) (retried : Bool) (acc : List String) (rs : Nat) (e : String)
    (hsrv : server o limit = Except.error e) :
    fetchLoop server (fuel + 1) o limit retried acc rs =
      match searchPageLimit e with
      | some pr =>
        if retried then some (acc, rs)
        else if 0 < pr.2 then fetchLoop server fuel 0 pr.2 true [] (rs + 1)
        else some (acc, rs)
      | none => some (acc, rs) := by
  simp only [fetchLoop, hsrv]

/-- Claim C6: a listing failure that is not a page-limit error, or a
page-limit error after the single allowed correction was already used,
stops pagination and returns exactly the products accumulated from the
pages read so far. -/
theorem fetch_aborts_on_error (server : ListServer) (fuel : Nat) (offset : Int)
    (limit : Nat) (retried : Bool) (acc : List String) (rs : Nat) (e : String)
    (hsrv : server offset limit = Except.error e)
    (habort : searchPageLimit e = none ∨ retried = true) :
    fetchLoop server (fuel + 1) offset limit retried acc rs = some (acc, rs) := by
  rcases habort with hnone | hret
  · simp [fetchLoop, hsrv, hnone]
  · subst hret
    cases hparse : searchPageLimit e with
    | none => simp [fetchLoop, hsrv, hparse]
    | some pr => simp [fetchLoop, hsrv, hparse]

/-- A listing endpoint that always fails with a non-page-limit error. -/
def wFailServer : ListServer := fun _ _ => Except.error "boom"

theorem fetch_aborts_on_error_witness :
    wFailServer 0 3 = Except.error "boom" ∧
    (searchPageLimit "boom" = none ∨ false = true) ∧
    fetchLoop wFailServer 4 0 3 false [] 0 = some ([], 0) :=
  ⟨rfl, Or.inl (by decide),
    fetch_aborts_on_error wFailServer 3 0 3 false [] 0 "boom" rfl (Or.inl (by decide))⟩

theorem offFrom_shift (step : Int → ListResp) (o : Int) :
    ∀ i, offFrom step ((step o).next_offset) i = offFrom step o (i + 1) := by
  intro i
  induction i with
  | zero => rfl
  | succ i ih => simp only [offFrom, ih]

theorem fetchLoop_sentinel (step : Int → ListResp) :
    ∀ (n : Nat) (o : Int) (limit : Nat) (retried : Bool) (acc : List String) (rs : Nat),
      (∀ i < n, (step (offFrom step o i)).next_offset ≠ -1) →
      (step (offFrom step o n)).next_offset = -1 →
      fetchLoop (serverOf step) (n + 1) o limit retried acc rs =
        some (acc ++ collectFrom step n o, rs) := by
  intro n
  induction n with
  | zero =>
    intro o limit retried acc rs h1 h2
    have h2b : (step o).next_offset = -1 := h2
    rw [fetchLoop_ok_step (serverOf step) 0 o limit retried acc rs (step o) rfl,
      if_pos h2b]
    simp [collectFrom]
  | succ n ih =>
    intro o limit retried acc rs h1 h2
    have h0 : (step o).next_offset ≠ -1 := h1 0 (Nat.succ_pos n)
    rw [fetchLoop_ok_step (serverOf step) (n + 1) o limit retried acc rs (step o) rfl,
      if_neg h0]
    rw [ih ((step o).next_offset) limit retried (acc ++ (step o).products) rs
      (fun i hi => by rw [offFrom_shift]; exact h1 (i + 1) (Nat.succ_lt_succ hi))
      (by rw [offFrom_shift]; exact h2)]
    simp [collectFrom]

/-- Claim C7: when some response along the offset chain eventually carries
`next_offset = -1`, the fetch terminates and returns the concatenation of
the products of every page read, the sentinel page included. -/
theorem fetch_all_products_sentinel (step : Int → ListResp) (n : Nat)
    (h1 : ∀ i < n, (step (offFrom step 0 i)).next_offset ≠ -1)
    (h2 : (step (offFrom step 0 n)).next_offset = -1) :
    fetch_all_products (serverOf step) (n + 1) = some (collectFrom step n 0, 0) := by
  unfold fetch_all_products
  rw [fetchLoop_sentinel step n 0 3 false [] 0 h1 h2]
  simp

/-- A two-page listing: offset 0 yields two SKUs and points at offset 2,
which yields one SKU and the sentinel. -/
def wStep : Int → ListResp := fun o =>
  if o = 0 then ⟨["a", "b"], 2⟩ else if o = 2 then ⟨["c"], -1⟩ else ⟨[], -1⟩

theorem fetch_all_products_sentinel_witness :
    (∀ i < 1, (wStep (offFrom wStep 0 i)).next_offset ≠ -1) ∧
    (wStep (offFrom wStep 0 1)).next_offset = -1 ∧
    fetch_all_products (serverOf wStep) 2 = some (["a", "b", "c"], 0) :=
  ⟨by decide, by decide,
    fetch_all_products_sentinel wStep 1 (by decide) (by decide)⟩

/-- The `retried_with_lower_limit` flag caps the number of page-limit
restarts: at most one more when the flag is still down, none once it is up. -/
theorem fetchLoop_restarts_bound (server : ListServer) :
    ∀ (fuel : Nat) (o : Int) (limit : Nat) (retried : Bool) (acc : List String)
      (rs : Nat) (res : List String × Nat),
      fetchLoop server fuel o limit retried acc rs = some res →
      res.2 ≤ rs + (if retried then 0 else 1) := by
  intro fuel
  induction fuel with
  | zero => intro o l retried acc rs res h; exact Option.noConfusion h
  | succ fuel ih =>
    intro o l retried acc rs res h
    cases hsrv : server o l with
    | ok r2 =>
      rw [fetchLoop_ok_step server fuel o l retried acc rs r2 hsrv] at h
      by_cases hoff : r2.next_offset = -1
      · rw [if_pos hoff] at h
        injection h with h2
        rw [← h2]
        cases retried <;> simp
      · rw [if_neg hoff] at h
        exact ih r2.next_offset l retried (acc ++ r2.products) rs res h
    | error e =>
      rw [fetchLoop_err_step server fuel o l retried acc rs e hsrv] at h
      cases hparse : searchPageLimit e with
      | none =>
        rw [hparse] at h
        injection h with h2
        rw [← h2]
        cases retried <;> simp
      | some pr =>
        rw [hparse] at h
        cases retried with
        | true =>
          simp only [if_pos] at h
          injection h with h2
          rw [← h2]
          simp
        | false =>
          simp only [Bool.false_eq_true, if_false] at h
          by_cases hpos : 0 < pr.2
          · rw [if_pos hpos] at h
            have hb := ih 0 pr.2 true [] (rs + 1) res h
            simp only [if_pos] at hb
            simpa using hb
          · rw [if_neg hpos] at h
            injection h with h2
            rw [← h2]
            simp

/-- On an honest listing whose maximum page size accommodates the requested
limit, the loop accumulates the rest of the catalog and stops at the
sentinel. -/
theorem honest_complete (catalog : List String) (m : Nat) (hm : 1 ≤ m) :
    ∀ (fuel o : Nat) (retried : Bool) (acc : List String) (rs : Nat),
      catalog.length ≤ o + fuel * m →
      fetchLoop (honestServer catalog m) (fuel + 1) (o : Int) m retried acc rs =
        some (acc ++ catalog.drop o, rs) := by
  intro fuel
  induction fuel with
  | zero =>
    intro o retried acc rs hlen
    have hs : honestServer catalog m (o : Int) m = Except.ok
        { products := (catalog.drop o).take m
          next_offset := if o + m < catalog.length then ((o + m : Nat) : Int) else -1 } := by
      unfold honestServer
      rw [if_neg (lt_irrefl m)]
      simp
    rw [fetchLoop_ok_step (honestServer catalog m) 0 (o : Int) m retried acc rs _ hs]
    simp only [Nat.zero_mul, Nat.add_zero] at hlen
    rw [if_neg (by omega : ¬ o + m < catalog.length)]
    rw [if_pos rfl]
    rw [List.take_of_length_le (by rw [List.length_drop]; omega)]
  | succ fuel ih =>
    intro o retried acc rs hlen
    have hs : honestServer catalog m (o : Int) m = Except.ok
        { products := (catalog.drop o).take m
          next_offset := if o + m < catalog.length then ((o + m : Nat) : Int) else -1 } := by
      unfold honestServer
      rw [if_neg (lt_irrefl m)]
      simp
    rw [fetchLoop_ok_step (honestServer catalog m) (fuel + 1) (o : Int) m retried acc rs _ hs]
    by_cases hnext : o + m < catalog.length
    · rw [if_pos hnext]
      rw [if_neg (by omega : ¬ ((o + m : Nat) : Int) = -1)]
      have hmul : (fuel + 1) * m = fuel * m + m := by ring
      rw [ih (o + m) retried (acc ++ (catalog.drop o).take m) rs (by omega)]
      rw [List.append_assoc, ← List.drop_drop, List.take_append_drop]
    · rw [if_neg hnext]
      rw [if_pos rfl]
      rw [List.take_of_length_le (by rw [List.length_drop]; omega)]

/-- Claim C2: when the server rejects the hard-coded page size 3 with a
page-limit error, the fetch parses the allowed size out of the message,
drops what it had accumulated, rescans from offset zero with the corrected
size — ending with the complete, duplicate-free catalog — and no run of the
loop ever takes the correction more than once. -/
theorem fetch_page_limit_corrected (catalog : List String) (m : Nat)
    (hm1 : 1 ≤ m) (hm2 : m < 3) (hnd : catalog.Nodup) :
    (∃ ps rs,
      fetch_all_products (honestServer catalog m) (catalog.length + 2) = some (ps, rs) ∧
      ps = catalog ∧ ps.Nodup ∧ rs ≤ 1) ∧
    (∀ (server : ListServer) (fuel : Nat) (res : List String × Nat),
      fetch_all_products server fuel = some res → res.2 ≤ 1) := by
  constructor
  · have hs : honestServer catalog m (0 : Int) 3 = Except.error
        ("page limit exceeded: " ++ toString (3 : Nat) ++ " > " ++ toString m) := by
      unfold honestServer
      rw [if_pos hm2]
    have hparse : searchPageLimit
        ("page limit exceeded: " ++ toString (3 : Nat) ++ " > " ++ toString m) =
          some (3, m) := by
      interval_cases m <;> decide
    refine ⟨catalog, 1, ?_, rfl, hnd, le_refl 1⟩
    unfold fetch_all_products
    rw [show catalog.length + 2 = (catalog.length + 1) + 1 from rfl]
    rw [fetchLoop_err_step (honestServer catalog m) (catalog.length + 1) 0 3 false [] 0 _ hs]
    simp only [hparse]
    simp only [Bool.false_eq_true, if_false]
    rw [if_pos (show 0 < ((3, m) : Nat × Nat).2 from hm1)]
    have hrun := honest_complete catalog m hm1 catalog.length 0 true [] 1
      (by
        have h := Nat.mul_le_mul_left catalog.length hm1
        rw [Nat.mul_one] at h
        simpa using h)
    simpa using hrun
  · intro server fuel res h
    have hb := fetchLoop_restarts_bound server fuel 0 3 false [] 0 res h
    simpa using hb

theorem fetch_page_limit_corrected_witness :
    (1 ≤ 2 ∧ 2 < 3 ∧ (["a", "b", "c", "d"] : List String).Nodup) ∧
    ((∃ ps rs,
      fetch_all_products (honestServer ["a", "b", "c", "d"] 2)
        ((["a", "b", "c", "d"] : List String).length + 2) = some (ps, rs) ∧
      ps = ["a", "b", "c", "d"] ∧ ps.Nodup ∧ rs ≤ 1) ∧
    (∀ (server : ListServer) (fuel : Nat) (res : List String × Nat),
      fetch_all_products server fuel = some res → res.2 ≤ 1)) :=
  ⟨⟨by decide, by decide, by decide⟩,
    fetch_page_limit_corrected ["a", "b", "c", "d"] 2 (by decide) (by decide) (by decide)⟩

/-! ## Checkout-sequencer lemmas -/

theorem checkoutAttempt_spec (inv : String → Nat) :
    ∀ (lines : List BasketLine) (res : String × Nat × Nat),
      checkoutAttempt inv lines = some res →
      ∃ l ∈ lines, inv l.sku < l.qty ∧ res = (l.sku, inv l.sku, l.qty) := by
  intro lines
  induction lines with
  | nil => intro res h; exact Option.noConfusion h
  | cons l ls ih =>
    intro res h
    simp only [checkoutAttempt, List.findSome?_cons] at h
    by_cases hc : inv l.sku < l.qty
    · simp only [if_pos hc] at h
      injection h with h2
      exact ⟨l, List.mem_cons_self l ls, hc, h2.symm⟩
    · simp only [if_neg hc] at h
      obtain ⟨l2, hmem, hlt, heq⟩ := ih res h
      exact ⟨l2, List.mem_cons_of_mem l hmem, hlt, heq⟩

theorem shortfallAdjust_total_lt (inv : String → Nat) (lines : List BasketLine)
    (sku : String) (a r : Nat)
    (h : checkoutAttempt inv lines = some (sku, a, r)) :
    totalQty (shortfallAdjust lines sku a r) < totalQty lines := by
  obtain ⟨l, hmem, hlt, heq⟩ := checkoutAttempt_spec inv lines _ h
  obtain ⟨e1, e2, e3⟩ : sku = l.sku ∧ a = inv l.sku ∧ r = l.qty := by
    simpa [Prod.ext_iff] using heq
  unfold totalQty shortfallAdjust
  rw [List.map_map]
  refine List.sum_lt_sum _ _ ?_ ⟨l, hmem, ?_⟩
  · intro x hx
    by_cases hsku : x.sku = sku <;> simp [Function.comp, hsku]
  · subst e1 e2 e3
    simp [Function.comp]
    omega

theorem checkoutSequencer_terminates (inv : String → Nat) :
    ∀ (fuel : Nat) (lines : List BasketLine), totalQty lines < fuel →
      (checkoutSequencer inv fuel lines).isSome = true := by
  intro fuel
  induction fuel with
  | zero => intro lines h; exact absurd h (Nat.not_lt_zero _)
  | succ fuel ih =>
    intro lines h
    simp only [checkoutSequencer]
    cases hatt : checkoutAttempt inv lines with
    | none => simp
    | some f =>
      obtain ⟨sku, a, r⟩ := f
      simp only []
      apply ih
      have := shortfallAdjust_total_lt inv lines sku a r hatt
      omega

/-- Behaviour required after an insufficient-inventory failure reporting
`(available, requested)` for a line: the shortfall is positive, the report
matches the basket line and the stock, the next attempt carries that line
with its quantity reduced by exactly `requested - available`, each
adjustment strictly reduces the total requested quantity, and the retry
loop commits within total-basket-quantity many attempts. -/
def AdjustProp (inv : String → Nat) (lines : List BasketLine) (sku : String)
    (a r : Nat) : Prop :=
  a < r ∧ inv sku = a ∧
  (∃ l ∈ lines, l.sku = sku ∧ l.qty = r) ∧
  (∀ l ∈ lines, l.sku = sku →
    BasketLine.mk sku (l.qty - (r - a)) ∈ shortfallAdjust lines sku a r) ∧
  totalQty (shortfallAdjust lines sku a r) < totalQty lines ∧
  (checkoutSequencer inv (totalQty lines + 1) lines).isSome = true

/-- Claim C9: after an insufficient-inventory checkout failure the next
attempt reduces the failing line by exactly the shortfall, the adjustment
strictly shrinks the requested quantity, and the retry loop is bounded by
the total basket quantity. -/
theorem checkout_adjust (inv : String → Nat) (lines : List BasketLine)
    (sku : String) (a r : Nat)
    (h : checkoutAttempt inv lines = some (sku, a, r)) :
    AdjustProp inv lines sku a r := by
  obtain ⟨l, hmem, hlt, heq⟩ := checkoutAttempt_spec inv lines _ h
  obtain ⟨e1, e2, e3⟩ : sku = l.sku ∧ a = inv l.sku ∧ r = l.qty := by
    simpa [Prod.ext_iff] using heq
  refine ⟨by omega, by rw [e1, e2], ⟨l, hmem, e1.symm, e3.symm⟩, ?_,
    shortfallAdjust_total_lt inv lines sku a r h,
    checkoutSequencer_terminates inv _ lines (Nat.lt_succ_self _)⟩
  intro l2 hmem2 hsku
  exact List.mem_map.mpr ⟨l2, hmem2, by simp [hsku]⟩

/-- Witness inventory and basket: 4 units in stock, 6 requested. -/
def wInv : String → Nat := fun s => if s = "soda-12pk" then 4 else 0

def wLines : List BasketLine := [⟨"soda-12pk", 6⟩]

theorem checkout_adjust_witness :
    checkoutAttempt wInv wLines = some ("soda-12pk", 4, 6) ∧
    AdjustProp wInv wLines "soda-12pk" 4 6 :=
  ⟨by decide, checkout_adjust wInv wLines "soda-12pk" 4 6 (by decide)⟩

end StoreAgent
